import Mathlib

/-!
Verification of the grib2hrrr GRIB2 decoder (Go) against its specification.

The Go sources are shallowly embedded here:
  * byte buffers are `List Nat` (each entry a byte value 0..255; the
    predicate `IsBytes` records byte-boundedness where a proof needs it);
  * Go `int` / `int64` values are `Int`, with two's-complement wrapping
    made explicit through `wrap64` / `toInt64` at every operation where the
    Go code can overflow or reinterprets an unsigned value;
  * Go `uint64` accumulation is `Nat` reduced `% 2^64` where the code can
    wrap;
  * `float64` is modelled by `GF`: either the quiet-NaN sentinel or an
    exact rational.  All floating-point arithmetic performed by the decoder
    is modelled exactly over ℚ (the claims under study are formula-level;
    IEEE rounding, and the distinction between NaN and infinities, are
    outside the model and non-finite float32 wire values collapse to
    `GF.nan`);
  * fallible Go functions return `Except GoPanic α`; a Go runtime panic
    (out-of-range slice index) is the distinguished error `GoPanic.crash`,
    and the unbounded section-walking loop of `DecodeMessage` is driven by
    explicit fuel, `GoPanic.diverge` marking fuel exhaustion.
-/

set_option maxRecDepth 100000
set_option autoImplicit false

namespace Grib

/-- Two's-complement reinterpretation of a 64-bit unsigned value (`Go`'s
`int64(v)` conversion from `uint64`). -/
def toInt64 (v : Nat) : Int :=
  if v < 2 ^ 63 then (v : Int) else (v : Int) - 2 ^ 64

/-- Two's-complement reinterpretation of a 32-bit unsigned value (`Go`'s
`int32(v)` conversion from `uint32`). -/
def toInt32 (v : Nat) : Int :=
  if v < 2 ^ 31 then (v : Int) else (v : Int) - 2 ^ 32

/-- Wrap an integer to the `int64` range, as Go's signed arithmetic does on
overflow. -/
def wrap64 (x : Int) : Int :=
  (x + 2 ^ 63).emod (2 ^ 64) - 2 ^ 63

/-- Go's truncated (toward-zero) division by 8, used for `pos / 8` on the
bit cursor, which can be negative. -/
def tdiv8 (a : Int) : Int :=
  if 0 ≤ a then ((a.toNat / 8 : Nat) : Int) else -(((-a).toNat / 8 : Nat) : Int)

/-- Go's truncated remainder by 8 (`pos % 8`), with the sign of the
dividend. -/
def tmod8 (a : Int) : Int :=
  a - 8 * tdiv8 a

/-- All entries of a buffer are byte values. -/
def IsBytes (buf : List Nat) : Prop :=
  ∀ b ∈ buf, b < 256

instance (buf : List Nat) : Decidable (IsBytes buf) := by
  unfold IsBytes; infer_instance

/-- Go slice indexing `l[i]`: `none` models the out-of-range panic. -/
def goIdx {α : Type} (l : List α) (i : Int) : Option α :=
  if 0 ≤ i then l[i.toNat]? else none

/-- Big-endian value of a byte string (`binary.BigEndian.UintXX`). -/
def bytesBE (l : List Nat) : Nat :=
  l.foldl (fun a b => a * 256 + b) 0

/-- Big-endian 32-bit field at byte offset `off` of a buffer. -/
def u32at (buf : List Nat) (off : Nat) : Nat :=
  bytesBE ((buf.drop off).take 4)

/-- Big-endian 16-bit field at byte offset `off` of a buffer. -/
def u16at (buf : List Nat) (off : Nat) : Nat :=
  bytesBE ((buf.drop off).take 2)

/-- Big-endian 64-bit field at byte offset `off` of a buffer. -/
def u64at (buf : List Nat) (off : Nat) : Nat :=
  bytesBE ((buf.drop off).take 8)

/-- Bit `k` of a buffer, MSB-first within each byte: bit 7−(k mod 8) of
byte ⌊k/8⌋ (0 past the end). -/
def bitAt (buf : List Nat) (k : Nat) : Nat :=
  ((buf.getD (k / 8) 0) >>> (7 - k % 8)) &&& 1

/-- The value of the `n` bits starting at bit `p`, interpreted
most-significant-bit first.  This is the specification-side description of
what the bit reader must return. -/
def msbBits (buf : List Nat) : Nat → Nat → Nat
  | _, 0 => 0
  | p, n + 1 => bitAt buf p * 2 ^ n + msbBits buf (p + 1) n

/-- Smallest multiple of 8 that is `≥ p`: the byte-aligned cursor position
after an `align()` from position `p`. -/
def alignUp (p : Nat) : Nat :=
  8 * ((p + 7) / 8)

/-! ### Bit reader (`bitstream.go`) -/

/-- `bitReader`: a byte slice plus a bit cursor.  The cursor is a Go `int`,
so it is modelled as `Int` (the code can drive it negative). -/
structure BR where
  buf : List Nat
  pos : Int
deriving DecidableEq, Repr

/-- Result of `bitReader.read`: success with value and updated reader,
structured failure with the (unchanged) reader, or a runtime panic. -/
inductive ReadRes where
  | ok (v : Nat) (r : BR)
  | fail (r : BR)
  | crash
deriving DecidableEq, Repr

/-- The bit-by-bit loop of the slow path of `read`: `n` iterations of
`v = v<<1 | bit`, on a `uint64` accumulator; `none` models the panic on an
out-of-range byte index. -/
def readLoop (buf : List Nat) : Int → Nat → Nat → Option Nat
  | _, 0, acc => some acc
  | p, n + 1, acc =>
    match goIdx buf (tdiv8 p) with
    | none => none
    | some b => readLoop buf (p + 1) n ((acc * 2 + ((b >>> (7 - tmod8 p).toNat) &&& 1)) % 2 ^ 64)

/-- `bitReader.read` from `bitstream.go`.  The byte-aligned fast path for
n ∈ {8,16,32,64} reads n/8 bytes big-endian (`binary.BigEndian.UintXX`);
indexing or slicing out of range — possible when the cursor has been driven
negative — is a panic (`.crash`). -/
def read (r : BR) (n : Int) : ReadRes :=
  if n = 0 then .ok 0 r
  else if 8 * (r.buf.length : Int) < r.pos + n then .fail r
  else if tmod8 r.pos = 0 ∧ (n = 8 ∨ n = 16 ∨ n = 32 ∨ n = 64) then
    if 0 ≤ tdiv8 r.pos ∧ (tdiv8 r.pos).toNat + (tdiv8 n).toNat ≤ r.buf.length then
      .ok (bytesBE ((r.buf.drop (tdiv8 r.pos).toNat).take (tdiv8 n).toNat)) ⟨r.buf, r.pos + n⟩
    else .crash
  else
    match readLoop r.buf r.pos n.toNat 0 with
    | none => .crash
    | some v => .ok v ⟨r.buf, r.pos + n⟩

/-- `read` as it would behave with the fast path removed: the generic
bit-by-bit path, used to state the fast-path/slow-path equivalence. -/
def readSlowOnly (r : BR) (n : Int) : ReadRes :=
  if n = 0 then .ok 0 r
  else if 8 * (r.buf.length : Int) < r.pos + n then .fail r
  else
    match readLoop r.buf r.pos n.toNat 0 with
    | none => .crash
    | some v => .ok v ⟨r.buf, r.pos + n⟩

/-- `bitReader.align`: advance the cursor to the next multiple of 8. -/
def BR.align (r : BR) : BR :=
  if tmod8 r.pos ≠ 0 then ⟨r.buf, r.pos + (8 - tmod8 r.pos)⟩ else r

/-! ### Float model and error model -/

/-- Model of a Go `float64` value: the quiet-NaN sentinel or an exact
rational.  All float arithmetic in the decoder is modelled exactly over ℚ
(IEEE rounding is outside the model); infinities collapse to `nan`. -/
inductive GF where
  | nan
  | num (q : ℚ)
deriving DecidableEq, Repr

/-- Structured error kinds returned by the decoder (the Go code returns
`fmt.Errorf` values; only the kind matters here). -/
inductive ETag where
  | overflow | tooShort | mismatch | negLength | limitTotal | totalBelowOrder
  | badOrder | badOctets | badNG | countMismatch | badMagic | secOOB
  | badDims | badScan | badTemplate | noSec3 | noSec5 | noSec7 | badBitmap
  | lenMismatch | secLen | limitBits | ngRange
deriving DecidableEq, Repr

/-- Abnormal outcome of embedded Go code: a structured error, a runtime
panic, or (for the fuel-driven section walk) non-termination. -/
inductive GoPanic where
  | err (t : ETag)
  | crash
  | diverge
deriving DecidableEq, Repr

/-- Result monad for the embedded decoder functions. -/
abbrev P (α : Type) : Type := Except GoPanic α

/-! ### Bitmap expansion (`bitmap.go`) -/

/-- `bitmapBit`: whether grid point `i` has data in the MSB-first bitmap;
bytes past the end of the bitmap read as clear. -/
def bitmapBit (bitmap : List Nat) (i : Nat) : Bool :=
  if bitmap.length ≤ i / 8 then false
  else (((bitmap.getD (i / 8) 0) >>> (7 - i % 8)) &&& 1) == 1

/-- `countSetBits`: number of set bits among positions `0..n-1`. -/
def countSetBits (bitmap : List Nat) : Nat → Nat
  | 0 => 0
  | n + 1 => countSetBits bitmap n + (if bitmapBit bitmap n then 1 else 0)

/-- The expansion loop of `applyBitmap`: `k` remaining grid points starting
at position `i`, with `vi` packed values already consumed.  `vals[vi]`
out of range is a Go panic. -/
def abLoop (vals : List GF) (bitmap : List Nat) : Nat → Nat → Nat → P (List GF)
  | 0, _, _ => .ok []
  | k + 1, i, vi =>
    if bitmapBit bitmap i then
      match vals[vi]? with
      | none => .error .crash
      | some v => do
        let rest ← abLoop vals bitmap k (i + 1) (vi + 1)
        .ok (v :: rest)
    else do
      let rest ← abLoop vals bitmap k (i + 1) vi
      .ok (GF.nan :: rest)

/-- `applyBitmap` from `bitmap.go`: expand packed values to a full
`totalPoints` grid, NaN where the bitmap bit is clear.  A negative
`totalPoints` would make `make([]float64, totalPoints)` panic. -/
def applyBitmap (vals : List GF) (bitmap : List Nat) (totalPoints : Int) : P (List GF) :=
  if countSetBits bitmap totalPoints.toNat ≠ vals.length then .error (.err .mismatch)
  else if totalPoints < 0 then .error .crash
  else abLoop vals bitmap totalPoints.toNat 0 0

/-! ### Sign-magnitude and scale helpers (`sections.go`, `drs53.go`) -/

/-- Maximum decoded values per message (`maxTotal` in `drs53.go`). -/
def maxTotal : Nat := 10000000

/-- Maximum group count (`maxNG`). -/
def maxNG : Nat := 4194304

/-- Maximum per-axis grid dimension (`maxGridDim`). -/
def maxGridDim : Nat := 30000

/-- Maximum bit-width field value (`maxBitWidth`). -/
def maxBitWidth : Nat := 64

/-- `decodeScaleFactor`: GRIB2 sign-magnitude 2-byte scale factor; the MSB
is the sign, the remaining 15 bits the magnitude. -/
def decodeScaleFactor (raw : Nat) : Int :=
  if raw &&& 32768 ≠ 0 then -((raw &&& 32767 : Nat) : Int) else ((raw &&& 32767 : Nat) : Int)

/-- `math.Float32frombits`, exactly over ℚ; NaN and infinities (exponent
field 255) collapse to the `nan` sentinel. -/
def float32frombits (v : Nat) : GF :=
  if v / 2 ^ 23 % 2 ^ 8 = 255 then .nan
  else if v / 2 ^ 23 % 2 ^ 8 = 0 then
    .num ((if v / 2 ^ 31 % 2 = 1 then (-1 : ℚ) else 1) * (v % 2 ^ 23 : Nat) / 2 ^ 149)
  else
    .num ((if v / 2 ^ 31 % 2 = 1 then (-1 : ℚ) else 1) * ((2 ^ 23 + (v % 2 ^ 23 : Nat) : Nat) : ℚ)
      * (2 : ℚ) ^ ((v / 2 ^ 23 % 2 ^ 8 : Nat) - 150 : Int))

/-- The unpacking formula `Y = (R + 2^E·x) / 10^D` (`math.Ldexp(1, E)` is
the exact power of two, `math.Pow(10, D)` the power of ten), over the `GF`
float model. -/
def gfScale (R : GF) (E D : Int) (x : Int) : GF :=
  match R with
  | .nan => .nan
  | .num r => .num ((r + (2 : ℚ) ^ E * (x : ℚ)) / (10 : ℚ) ^ D)

/-- The constant-field value `R / 10^D` used when bits-per-value is 0. -/
def gfConst (R : GF) (D : Int) : GF :=
  match R with
  | .nan => .nan
  | .num r => .num (r / (10 : ℚ) ^ D)

/-! ### DRS template 5.0 (`drs0.go`) -/

/-- `DRS0Params` from `drs0.go`. -/
structure DRS0Params where
  ReferenceValue : GF
  BinaryScaleFactor : Int
  DecimalScaleFactor : Int
  Nbits : Int
  TypeOfValue : Nat
  N : Int
deriving DecidableEq, Repr

/-- A loop of `count` consecutive `read w` calls collecting the raw values
(the common shape of the value loops in `drs0.go` and `drs53.go`); a read
error aborts with the bit reader's overflow error. -/
def readNInts : BR → Int → Nat → P (List Nat × BR)
  | br, _, 0 => .ok ([], br)
  | br, w, c + 1 =>
    match read br w with
    | .ok v br' => do
      let (vs, br'') ← readNInts br' w c
      .ok (v :: vs, br'')
    | .fail _ => .error (.err .overflow)
    | .crash => .error .crash

/-- `parseDRS0` from `drs0.go`. -/
def parseDRS0 (sec : List Nat) : P DRS0Params :=
  if sec.length < 11 + 10 then .error (.err .tooShort)
  else if maxTotal < u32at sec 5 then .error (.err .limitTotal)
  else if maxBitWidth < (sec.drop 11).getD 8 0 then .error (.err .limitBits)
  else
    .ok ⟨float32frombits (u32at (sec.drop 11) 0),
      decodeScaleFactor (u16at (sec.drop 11) 4),
      decodeScaleFactor (u16at (sec.drop 11) 6),
      (((sec.drop 11).getD 8 0 : Nat) : Int),
      (sec.drop 11).getD 9 0,
      ((u32at sec 5 : Nat) : Int)⟩

/-- `unpackDRS0` from `drs0.go`: `sec7` is the raw Section 7 bytes
including the 5-byte header.  `make([]float64, n)` with a negative count
would panic, hence the `crash` branch. -/
def unpackDRS0 (sec7 : List Nat) (p : DRS0Params) : P (List GF) :=
  if sec7.length < 5 then .error (.err .tooShort)
  else if p.N < 0 then .error .crash
  else if p.Nbits = 0 then
    .ok (List.replicate p.N.toNat (gfConst p.ReferenceValue p.DecimalScaleFactor))
  else do
    let (xs, _) ← readNInts ⟨sec7.drop 5, 0⟩ p.Nbits p.N.toNat
    .ok (xs.map (fun (x : Nat) =>
      gfScale p.ReferenceValue p.BinaryScaleFactor p.DecimalScaleFactor ((x : Nat) : Int)))

/-! ### Section parsing (`part_002`: `sections.go` current revision) -/

/-- `Section0`: the GRIB2 indicator section. -/
structure Section0 where
  Discipline : Nat
  Edition : Nat
  TotalLength : Nat
deriving DecidableEq, Repr

/-- `parseSection0`: check length and magic, extract discipline, edition and
total length.  (The edition byte is extracted but not validated.) -/
def parseSection0 (b : List Nat) : P Section0 :=
  if b.length < 16 then .error (.err .tooShort)
  else if b.take 4 ≠ [71, 82, 73, 66] then .error (.err .badMagic)
  else .ok ⟨b.getD 6 0, b.getD 7 0, u64at b 8⟩

/-- `sectionAt`: locate the section at byte offset `off`; the `7777`
terminator (4 bytes, pseudo section number 8) is checked before the 5-byte
header guard.  Length arithmetic is exact (`uint64` in Go). -/
def sectionAt (buf : List Nat) (off : Nat) : P (Nat × Nat × List Nat × Nat) :=
  if off + 4 ≤ buf.length ∧ (buf.drop off).take 4 = [55, 55, 55, 55] then
    .ok (4, 8, (buf.drop off).take 4, off + 4)
  else if buf.length < off + 5 then .error (.err .secOOB)
  else if buf.length < off + u32at buf off then .error (.err .secLen)
  else .ok (u32at buf off, buf.getD (off + 4) 0,
    (buf.drop off).take (u32at buf off), off + u32at buf off)

/-- `LambertGrid` from `lambert.go` (float64 fields modelled as exact ℚ). -/
structure LambertGrid where
  Ni : Int
  Nj : Int
  La1 : ℚ
  Lo1 : ℚ
  LoV : ℚ
  Latin1 : ℚ
  Latin2 : ℚ
  Dx : ℚ
  Dy : ℚ
  ScanMode : Nat
deriving DecidableEq, Repr

/-- `Section3` wraps the decoded grid. -/
structure Section3 where
  Grid : LambertGrid
deriving DecidableEq, Repr

/-- `parseSection3HRRR`: GDT 3.30 in HRRR's compact layout; validates grid
dimensions and the scan mode (only 0x40 is supported). -/
def parseSection3HRRR (sec : List Nat) : P Section3 :=
  if sec.length < 14 + 67 then .error (.err .tooShort)
  else
    let g := sec.drop 14
    if ((u32at g 16 : Nat) : Int) ≤ 0 ∨ (maxGridDim : Int) < ((u32at g 16 : Nat) : Int) ∨
        ((u32at g 20 : Nat) : Int) ≤ 0 ∨ (maxGridDim : Int) < ((u32at g 20 : Nat) : Int) then
      .error (.err .badDims)
    else if g.getD 50 0 ≠ 64 then .error (.err .badScan)
    else .ok ⟨⟨((u32at g 16 : Nat) : Int), ((u32at g 20 : Nat) : Int),
      (toInt32 (u32at g 24) : ℚ) / 1000000,
      ((u32at g 28 : Nat) : ℚ) / 1000000,
      ((u32at g 37 : Nat) : ℚ) / 1000000,
      (toInt32 (u32at g 51) : ℚ) / 1000000,
      (toInt32 (u32at g 55) : ℚ) / 1000000,
      ((u32at g 41 : Nat) : ℚ) / 1000,
      ((u32at g 45 : Nat) : ℚ) / 1000,
      g.getD 50 0⟩⟩

/-- `DRS53Params` from `sections.go`. -/
structure DRS53Params where
  ReferenceValue : GF
  BinaryScaleFactor : Int
  DecimalScaleFactor : Int
  Nbits : Int
  TypeOfValue : Nat
  SplittingMethod : Nat
  MissingMgmt : Nat
  PrimaryMissing : GF
  SecondaryMissing : GF
  NG : Int
  RefGroupWidth : Int
  BitsGroupWidth : Int
  RefGroupLength : Nat
  LengthIncrement : Nat
  LenLastGroup : Nat
  BitsGroupLength : Int
  OrderSpatialDiff : Int
  NOctetsExtra : Int
deriving DecidableEq, Repr

/-- `parseDRS53`: decode Section 5 with DRS template 5.3, validating the
group count and the three bit-width fields. -/
def parseDRS53 (sec : List Nat) : P DRS53Params :=
  if sec.length < 11 + 38 then .error (.err .tooShort)
  else if ((u32at (sec.drop 11) 20 : Nat) : Int) < 1 ∨
      (maxNG : Int) < ((u32at (sec.drop 11) 20 : Nat) : Int) then .error (.err .ngRange)
  else if maxBitWidth < (sec.drop 11).getD 8 0 then .error (.err .limitBits)
  else if maxBitWidth < (sec.drop 11).getD 25 0 then .error (.err .limitBits)
  else if maxBitWidth < (sec.drop 11).getD 35 0 then .error (.err .limitBits)
  else
    .ok ⟨float32frombits (u32at (sec.drop 11) 0),
      decodeScaleFactor (u16at (sec.drop 11) 4),
      decodeScaleFactor (u16at (sec.drop 11) 6),
      (((sec.drop 11).getD 8 0 : Nat) : Int),
      (sec.drop 11).getD 9 0,
      (sec.drop 11).getD 10 0,
      (sec.drop 11).getD 11 0,
      float32frombits (u32at (sec.drop 11) 12),
      float32frombits (u32at (sec.drop 11) 16),
      ((u32at (sec.drop 11) 20 : Nat) : Int),
      (((sec.drop 11).getD 24 0 : Nat) : Int),
      (((sec.drop 11).getD 25 0 : Nat) : Int),
      u32at (sec.drop 11) 26,
      (sec.drop 11).getD 30 0,
      u32at (sec.drop 11) 31,
      (((sec.drop 11).getD 35 0 : Nat) : Int),
      (((sec.drop 11).getD 36 0 : Nat) : Int),
      (((sec.drop 11).getD 37 0 : Nat) : Int)⟩

/-! ### DRS template 5.3 (`drs53.go`) -/

/-- `readUintOctets`: big-endian unsigned integer from 1–4 bytes (the
default case folds with `uint64` wrapping). -/
def readUintOctets (b : List Nat) : Nat :=
  if 1 ≤ b.length ∧ b.length ≤ 4 then bytesBE b
  else b.foldl (fun v byt => (v * 256 + byt) % 2 ^ 64) 0

/-- `readSignMagOctets`: GRIB2 sign-magnitude integer; MSB is the sign
(`1` = negative). -/
def readSignMagOctets (b : List Nat) : Int :=
  if b.length = 0 then 0
  else
    if readUintOctets b &&& 2 ^ (8 * b.length - 1) ≠ 0 then
      -(toInt64 (readUintOctets b &&& (2 ^ (8 * b.length - 1) - 1)))
    else toInt64 (readUintOctets b)

/-- Step 2 of `unpackDRS53`: group reference values, then align. -/
def readGrefsPhase (br : BR) (p : DRS53Params) : P (List Int × BR) := do
  let (vs, br1) ← readNInts br p.Nbits p.NG.toNat
  .ok (vs.map toInt64, br1.align)

/-- Step 3 of `unpackDRS53`: group widths `RefGroupWidth + delta`, then
align. -/
def readWidthsPhase (br : BR) (p : DRS53Params) : P (List Int × BR) := do
  let (vs, br1) ← readNInts br p.BitsGroupWidth p.NG.toNat
  .ok (vs.map (fun v => wrap64 (p.RefGroupWidth + toInt64 v)), br1.align)

/-- Step 4 of `unpackDRS53`: `NG−1` group lengths
`delta·LengthIncrement + RefGroupLength`; the final delta is consumed but
discarded and the last length is the DRS header's `LenLastGroup`; then
align. -/
def readLengthsPhase (br : BR) (p : DRS53Params) : P (List Int × BR) := do
  let (vs, br1) ← readNInts br p.BitsGroupLength (p.NG.toNat - 1)
  match read br1 p.BitsGroupLength with
  | .ok _ br2 =>
    .ok (vs.map (fun v =>
      wrap64 (toInt64 v * (p.LengthIncrement : Int) + (p.RefGroupLength : Int)))
      ++ [((p.LenLastGroup : Nat) : Int)], br2.align)
  | .fail _ => .error (.err .overflow)
  | .crash => .error .crash

/-- Step 5 of `unpackDRS53`: accumulate the total (wrapping `int64`
addition, as in Go), rejecting negative lengths and totals above
`maxTotal` after each addition. -/
def sumLengths : List Int → Int → P Int
  | [], total => .ok total
  | l :: ls, total =>
    if l < 0 then .error (.err .negLength)
    else if (maxTotal : Int) < wrap64 (total + l) then .error (.err .limitTotal)
    else sumLengths ls (wrap64 (total + l))

/-- One group of step 6: `k` values of width `w`; width 0 repeats the
group reference, otherwise each value is `gref + raw` (wrapping). -/
def readGroupVals : BR → Int → Int → Nat → P (List Int × BR)
  | br, _, _, 0 => .ok ([], br)
  | br, gref, w, k + 1 =>
    if w = 0 then do
      let (vs, br') ← readGroupVals br gref w k
      .ok (gref :: vs, br')
    else
      match read br w with
      | .ok v br' => do
        let (vs, br'') ← readGroupVals br' gref w k
        .ok (wrap64 (gref + toInt64 v) :: vs, br'')
      | .fail _ => .error (.err .overflow)
      | .crash => .error .crash

/-- Step 6 of `unpackDRS53`: concatenate the per-group value runs. -/
def readGroups : BR → List (Int × Int × Int) → P (List Int × BR)
  | br, [] => .ok ([], br)
  | br, (gref, w, l) :: rest => do
    let (vs, br1) ← readGroupVals br gref w l.toNat
    let (vss, br2) ← readGroups br1 rest
    .ok (vs ++ vss, br2)

/-- Go slice read `l[i]` on an `int64` array; out of range panics. -/
def lget (l : List Int) (i : Nat) : P Int :=
  match l[i]? with
  | some v => .ok v
  | none => .error .crash

/-- Go slice write `l[i] = v`; out of range panics. -/
def lset (l : List Int) (i : Nat) (v : Int) : P (List Int) :=
  if i < l.length then .ok (l.set i v) else .error .crash

/-- Order-1 un-differencing loop: `u[i] = z[i] + u[i-1]` for `k` steps
starting at index `i` (arithmetic wraps in `int64`). -/
def undiffLoop1 : Nat → Nat → List Int → List Int → P (List Int)
  | 0, _, _, u => .ok u
  | k + 1, i, z, u => do
    let zi ← lget z i
    let um ← lget u (i - 1)
    let u' ← lset u i (wrap64 (zi + um))
    undiffLoop1 k (i + 1) z u'

/-- Order-2 un-differencing loop: `u[i] = z[i] + 2·u[i-1] − u[i-2]`. -/
def undiffLoop2 : Nat → Nat → List Int → List Int → P (List Int)
  | 0, _, _, u => .ok u
  | k + 1, i, z, u => do
    let zi ← lget z i
    let u1 ← lget u (i - 1)
    let u2 ← lget u (i - 2)
    let u' ← lset u i (wrap64 (zi + 2 * u1 - u2))
    undiffLoop2 k (i + 1) z u'

/-- Step 8 of `unpackDRS53`: seed `undiff` with the initial values and run
the un-differencing recurrence over a zero-initialised array of length
`total` (any other order leaves the zero array, unreachable after
validation). -/
def reconstruct (order : Int) (initVals : List Int) (z : List Int) (total : Nat) :
    P (List Int) :=
  if order = 1 then do
    let v0 ← lget initVals 0
    let u1 ← lset (List.replicate total 0) 0 v0
    undiffLoop1 (total - 1) 1 z u1
  else if order = 2 then do
    let v0 ← lget initVals 0
    let u1 ← lset (List.replicate total 0) 0 v0
    let v1 ← lget initVals 1
    let u2 ← lset u1 1 v1
    undiffLoop2 (total - 2) 2 z u2
  else .ok (List.replicate total 0)

/-- `unpackDRS53` from `drs53.go`: the full phase sequence. -/
def unpackDRS53 (sec7 : List Nat) (p : DRS53Params) : P (List GF) :=
  if sec7.length < 5 then .error (.err .tooShort)
  else if p.OrderSpatialDiff < 1 ∨ 2 < p.OrderSpatialDiff then .error (.err .badOrder)
  else if p.NOctetsExtra < 1 ∨ 4 < p.NOctetsExtra then .error (.err .badOctets)
  else if p.NG < 1 then .error (.err .badNG)
  else if (sec7.drop 5).length < (p.OrderSpatialDiff.toNat + 1) * p.NOctetsExtra.toNat then
    .error (.err .tooShort)
  else do
    let data := sec7.drop 5
    let m := p.NOctetsExtra.toNat
    let order := p.OrderSpatialDiff.toNat
    let (grefs, br1) ← readGrefsPhase ⟨data.drop ((order + 1) * m), 0⟩ p
    let (widths, br2) ← readWidthsPhase br1 p
    let (lengths, br3) ← readLengthsPhase br2 p
    let total ← sumLengths lengths 0
    if 1 ≤ p.OrderSpatialDiff ∧ total < 1 then .error (.err .totalBelowOrder)
    else if 2 ≤ p.OrderSpatialDiff ∧ total < 2 then .error (.err .totalBelowOrder)
    else do
      let (packed, _) ← readGroups br3 (grefs.zip (widths.zip lengths))
      if ((packed.length : Nat) : Int) ≠ total then .error (.err .countMismatch)
      else do
        let undiff ← reconstruct p.OrderSpatialDiff
          ((List.range order).map (fun i => readSignMagOctets ((data.drop (i * m)).take m)))
          (packed.map (fun x =>
            wrap64 (x + readSignMagOctets ((data.drop (order * m)).take m))))
          total.toNat
        .ok (undiff.map (fun x =>
          gfScale p.ReferenceValue p.BinaryScaleFactor p.DecimalScaleFactor x))

/-! ### Message decoding (`part_006`: `hrrr.go` current revision) -/

/-- A decoded field: grid plus row-major values. -/
structure Field where
  Grid : LambertGrid
  Vals : List GF
deriving DecidableEq, Repr

/-- The local variables of `DecodeMessage`'s section walk. -/
structure DecSt where
  grid : Option LambertGrid
  drsTemplate : Int
  drs0Params : DRS0Params
  drs53Params : DRS53Params
  hasDRS : Bool
  sec7 : Option (List Nat)
  bitmapData : Option (List Nat)
deriving DecidableEq, Repr

/-- Post-loop phase of `DecodeMessage`: required-section checks, unpacker
dispatch, optional bitmap expansion and the final length check. -/
def decodeFinish (st : DecSt) : P Field :=
  match st.grid with
  | none => .error (.err .noSec3)
  | some grid =>
    if st.hasDRS = false then .error (.err .noSec5)
    else
      match st.sec7 with
      | none => .error (.err .noSec7)
      | some s7 => do
        let vals ←
          (if st.drsTemplate = 0 then unpackDRS0 s7 st.drs0Params
           else if st.drsTemplate = 3 then unpackDRS53 s7 st.drs53Params
           else .ok ([] : List GF))
        let vals2 ←
          (match st.bitmapData with
           | some bm => applyBitmap vals bm (grid.Ni * grid.Nj)
           | none => .ok vals)
        if ((vals2.length : Nat) : Int) ≠ grid.Ni * grid.Nj then .error (.err .lenMismatch)
        else .ok ⟨grid, vals2⟩

/-- One arm of the section switch in `DecodeMessage`'s loop; sections 1, 2,
4 and unknown section numbers are skipped. -/
def decodeStep (st : DecSt) (sNum : Nat) (sec : List Nat) : P DecSt :=
  if sNum = 3 then do
    let s3 ← parseSection3HRRR sec
    .ok { st with grid := some s3.Grid }
  else if sNum = 5 then
    if sec.length < 11 then .error (.err .tooShort)
    else if u16at sec 9 = 0 then do
      let p0 ← parseDRS0 sec
      .ok { st with drs0Params := p0, drsTemplate := 0, hasDRS := true }
    else if u16at sec 9 = 3 then do
      let p53 ← parseDRS53 sec
      .ok { st with drs53Params := p53, drsTemplate := 3, hasDRS := true }
    else .error (.err .badTemplate)
  else if sNum = 6 then
    if sec.length < 6 then .error (.err .tooShort)
    else if sec.getD 5 0 = 255 then .ok st
    else if sec.getD 5 0 = 0 then .ok { st with bitmapData := some (sec.drop 6) }
    else .error (.err .badBitmap)
  else if sNum = 7 then .ok { st with sec7 := some sec }
  else .ok st

/-- The section-walking loop of `DecodeMessage`, driven by explicit fuel
(the Go loop is unbounded); running out of fuel yields `diverge`. -/
def decodeLoop : Nat → List Nat → Nat → DecSt → P Field
  | 0, _, _, _ => .error .diverge
  | fuel + 1, raw, off, st =>
    if off < raw.length then
      if off + 4 ≤ raw.length ∧ (raw.drop off).take 4 = [55, 55, 55, 55] then
        decodeFinish st
      else
        match sectionAt raw off with
        | .error e => .error e
        | .ok (_, sNum, sec, next) =>
          match decodeStep st sNum sec with
          | .error e => .error e
          | .ok st' => decodeLoop fuel raw next st'
    else decodeFinish st

/-- `DecodeMessage` from `hrrr.go` (current revision): verify the
indicator section, then walk the sections from offset 16. -/
def DecodeMessage (fuel : Nat) (raw : List Nat) : P Field :=
  match parseSection0 raw with
  | .error e => .error e
  | .ok _ => decodeLoop fuel raw 16
      ⟨none, -1, ⟨GF.num 0, 0, 0, 0, 0, 0⟩,
        ⟨GF.num 0, 0, 0, 0, 0, 0, 0, GF.num 0, GF.num 0, 0, 0, 0, 0, 0, 0, 0, 0, 0⟩,
        false, none, none⟩

/-- Whether an embedded decoder call succeeded. -/
def pIsOk {α : Type} : P α → Bool
  | .ok _ => true
  | .error _ => false

/-- Whether an embedded decoder call returned a structured error (as
opposed to succeeding, panicking, or diverging). -/
def pIsErr {α : Type} : P α → Bool
  | .ok _ => false
  | .error (.err _) => true
  | .error .crash => false
  | .error .diverge => false

/-! ### Concrete example inputs used by the claim theorems -/

/-- A 16-byte indicator section with edition byte 2. -/
def sec0ed2 : List Nat := [71, 82, 73, 66, 0, 0, 0, 2, 0, 0, 0, 0, 0, 0, 0, 0]

/-- A 16-byte indicator section whose edition byte is 3, not 2. -/
def ed3sec0 : List Nat := [71, 82, 73, 66, 0, 0, 0, 3, 0, 0, 0, 0, 0, 0, 0, 0]

/-- A valid 81-byte Section 3: a 2×2 Lambert grid, scan mode 0x40, all
angles and spacings zero. -/
def sec3ex : List Nat :=
  [0, 0, 0, 81, 3] ++ List.replicate 9 0 ++
    (List.replicate 16 0 ++ [0, 0, 0, 2] ++ [0, 0, 0, 2] ++ List.replicate 26 0 ++ [64] ++
      List.replicate 16 0)

/-- A valid 21-byte Section 5 (DRS 5.0): N = 4 values, 8 bits each,
R = E = D = 0. -/
def sec5drs0ex : List Nat :=
  [0, 0, 0, 21, 5, 0, 0, 0, 4, 0, 0, 0, 0, 0, 0, 0, 0, 0, 0, 8, 0]

/-- A 9-byte Section 7 packing the values 1, 2, 3, 4 as 8-bit integers. -/
def sec7drs0ex : List Nat := [0, 0, 0, 9, 7, 1, 2, 3, 4]

/-- A complete well-formed GRIB2 message except that its edition byte
is 3. -/
def ed3msg : List Nat := ed3sec0 ++ sec3ex ++ sec5drs0ex ++ sec7drs0ex ++ [55, 55, 55, 55]

/-- A 21-byte message: valid Section 0 followed by a section header whose
four-byte length field is zero and whose section number is 1. -/
def c2msg : List Nat := sec0ed2 ++ [0, 0, 0, 0, 1]

/-- A valid 49-byte Section 5 (DRS 5.3): NG = 2, group-width bit-width 64,
reference group length 1, last group length 1, length-delta bit-width 0,
order 1, one extra-descriptor octet. -/
def sec5drs53ex : List Nat :=
  [0, 0, 0, 49, 5, 0, 0, 0, 2, 0, 3] ++
    [0, 0, 0, 0, 0, 0, 0, 0, 0, 0, 0, 0, 0, 0, 0, 0, 0, 0, 0, 0,
     0, 0, 0, 2, 0, 64, 0, 0, 0, 1, 0, 0, 0, 0, 1, 0, 1, 1]

/-- A 23-byte Section 7 whose first 64-bit group-width delta is `2^63`,
driving the computed width of group 0 to `−2^63`; group 1 has width 8. -/
def sec7drs53ex : List Nat :=
  [0, 0, 0, 23, 7, 10, 0, 128, 0, 0, 0, 0, 0, 0, 0, 0, 0, 0, 0, 0, 0, 0, 8]

/-- A complete well-formed GRIB2 message whose DRS 5.3 payload drives a
group width negative: the bit cursor is moved backwards past zero and the
next positive-width read indexes the buffer at a negative offset. -/
def c1msg : List Nat := sec0ed2 ++ sec3ex ++ sec5drs53ex ++ sec7drs53ex ++ [55, 55, 55, 55]

/-- DRS 5.3 parameters for the C4 counterexample: NG = 2, length-delta
bit-width 64, length increment 1, reference group length 0, last group
length 5. -/
def c4params : DRS53Params :=
  ⟨GF.num 0, 0, 0, 0, 0, 0, 0, GF.num 0, GF.num 0, 2, 0, 0, 0, 1, 5, 64, 1, 1⟩

/-- Length-delta payload for the C4 counterexample: first delta `2^63`,
second (discarded) delta 0. -/
def c4buf : List Nat := [128, 0, 0, 0, 0, 0, 0, 0, 0, 0, 0, 0, 0, 0, 0, 0]

/-- DRS 5.3 parameters for the C5 failing input: NG = 4, 64-bit width and
length deltas, length increment 1, last group length 3, order 1. -/
def c5params : DRS53Params :=
  ⟨GF.num 0, 0, 0, 0, 0, 0, 0, GF.num 0, GF.num 0, 4, 0, 64, 0, 1, 3, 64, 1, 1⟩

/-- Section 7 for the C5 failing input: group lengths decode to
`[1, 2^63−1, 2^63−1, 3]`, whose running sum wraps `int64` past the 10M cap;
group 0 has computed width `−2^63` and group 1 width 8, so decoding then
panics instead of erroring. -/
def c5sec7 : List Nat :=
  [0, 0, 0, 71, 7, 7, 0] ++
    ([128, 0, 0, 0, 0, 0, 0, 0] ++ [0, 0, 0, 0, 0, 0, 0, 8] ++
      List.replicate 8 0 ++ List.replicate 8 0) ++
    ([0, 0, 0, 0, 0, 0, 0, 1] ++ [127, 255, 255, 255, 255, 255, 255, 255] ++
      [127, 255, 255, 255, 255, 255, 255, 255] ++ List.replicate 8 0)

deriving instance DecidableEq for Except

/-! ### Lambert conformal projection (`lambert.go`)

The projection is over ℝ with Mathlib's real functions standing for Go's
`math` package (`math.Pow` on a positive base is `Real.rpow`); grid
parameters (exact ℚ in the decoder) are coerced into ℝ.  These definitions
are noncomputable, as real trigonometry must be. -/

noncomputable section

/-- `earthRadiusM`: shape-of-earth 6 sphere radius. -/
def earthRadiusM : ℝ := 6371229

/-- `NormLon`: convert a 0–360 longitude to −180..+180. -/
def NormLon (lon : ℝ) : ℝ := if 180 < lon then lon - 360 else lon

/-- Degrees to radians. -/
def toRad (d : ℝ) : ℝ := d * Real.pi / 180

/-- `math.Round`: round half away from zero, then Go's `int(·)`. -/
def goRound (x : ℝ) : Int := if x < 0 then -⌊-x + 1 / 2⌋ else ⌊x + 1 / 2⌋

/-- The cone constant `n` of the Lambert grid. -/
def LambertGrid.n (g : LambertGrid) : ℝ :=
  if g.Latin1 = g.Latin2 then Real.sin (toRad (g.Latin1 : ℝ))
  else Real.log (Real.cos (toRad (g.Latin1 : ℝ)) / Real.cos (toRad (g.Latin2 : ℝ))) /
    Real.log (Real.tan (Real.pi / 4 + toRad (g.Latin2 : ℝ) / 2) /
      Real.tan (Real.pi / 4 + toRad (g.Latin1 : ℝ) / 2))

/-- The constant `F` of the Lambert grid. -/
def LambertGrid.bigF (g : LambertGrid) : ℝ :=
  Real.cos (toRad (g.Latin1 : ℝ)) *
    Real.rpow (Real.tan (Real.pi / 4 + toRad (g.Latin1 : ℝ) / 2)) g.n / g.n

/-- `rho`: cone distance from the pole for a latitude. -/
def LambertGrid.rho (g : LambertGrid) (latDeg : ℝ) : ℝ :=
  earthRadiusM * g.bigF / Real.rpow (Real.tan (Real.pi / 4 + toRad latDeg / 2)) g.n

/-- `refXY`: projected coordinates of the grid origin `(La1, Lo1)`,
`y` north-positive. -/
def LambertGrid.refXY (g : LambertGrid) : ℝ × ℝ :=
  (g.rho (g.La1 : ℝ) * Real.sin (g.n * toRad (NormLon (g.Lo1 : ℝ) - NormLon (g.LoV : ℝ))),
   -(g.rho (g.La1 : ℝ) * Real.cos (g.n * toRad (NormLon (g.Lo1 : ℝ) - NormLon (g.LoV : ℝ)))))

/-- `LatLonToIJ`: forward Lambert map to nearest grid indices. -/
def LambertGrid.LatLonToIJ (g : LambertGrid) (lat lon : ℝ) : Int × Int :=
  (goRound ((g.rho lat * Real.sin (g.n * toRad (NormLon lon - NormLon (g.LoV : ℝ))) -
      (g.refXY).1) / (g.Dx : ℝ)),
   goRound ((-(g.rho lat * Real.cos (g.n * toRad (NormLon lon - NormLon (g.LoV : ℝ)))) -
      (g.refXY).2) / (g.Dy : ℝ)))

/-- `Lookup` on a grid: NaN outside `[0, Ni) × [0, Nj)`, otherwise the
row-major element `vals[j·Ni + i]`; indexing out of range is a Go panic
(`none`). -/
def LambertGrid.Lookup (g : LambertGrid) (lat lon : ℝ) (vals : List GF) : Option GF :=
  if (g.LatLonToIJ lat lon).1 < 0 ∨ g.Ni ≤ (g.LatLonToIJ lat lon).1 ∨
      (g.LatLonToIJ lat lon).2 < 0 ∨ g.Nj ≤ (g.LatLonToIJ lat lon).2 then some GF.nan
  else goIdx vals ((g.LatLonToIJ lat lon).2 * g.Ni + (g.LatLonToIJ lat lon).1)

/-- `Field.Lookup`: nearest-neighbour lookup on a decoded field. -/
def Field.Lookup (f : Field) (lat lon : ℝ) : Option GF :=
  f.Grid.Lookup lat lon f.Vals

end

/-! DEFS-INSERT-MARKER (do not remove: further definitions go above) -/

end Grib

namespace Grib

/-! ### Arithmetic and list lemmas for the bit reader -/

theorem tdiv8_coe (k : Nat) : tdiv8 (k : Int) = ((k / 8 : Nat) : Int) := by
  simp [tdiv8, Int.toNat_natCast]

theorem tmod8_coe (k : Nat) : tmod8 (k : Int) = ((k % 8 : Nat) : Int) := by
  simp only [tmod8, tdiv8_coe]
  omega

theorem bitAt_le_one (buf : List Nat) (k : Nat) : bitAt buf k ≤ 1 := by
  unfold bitAt
  exact Nat.and_le_right

theorem msbBits_lt (buf : List Nat) (p n : Nat) : msbBits buf p n < 2 ^ n := by
  induction n generalizing p with
  | zero => simp [msbBits]
  | succ n ih =>
    have h1 := bitAt_le_one buf p
    have h2 := ih (p + 1)
    have : bitAt buf p * 2 ^ n ≤ 2 ^ n := by
      calc bitAt buf p * 2 ^ n ≤ 1 * 2 ^ n := Nat.mul_le_mul_right _ h1
        _ = 2 ^ n := one_mul _
    calc msbBits buf p (n + 1) = bitAt buf p * 2 ^ n + msbBits buf (p + 1) n := rfl
      _ < 2 ^ n + 2 ^ n := by omega
      _ = 2 ^ (n + 1) := by ring

theorem msbBits_add (buf : List Nat) (a : Nat) :
    ∀ p b, msbBits buf p (a + b) = msbBits buf p a * 2 ^ b + msbBits buf (p + a) b := by
  induction a with
  | zero => intro p b; simp [msbBits]
  | succ a ih =>
    intro p b
    have h1 : a + 1 + b = (a + b) + 1 := by omega
    calc msbBits buf p (a + 1 + b)
        = bitAt buf p * 2 ^ (a + b) + msbBits buf (p + 1) (a + b) := by rw [h1]; rfl
      _ = bitAt buf p * 2 ^ (a + b) +
            (msbBits buf (p + 1) a * 2 ^ b + msbBits buf (p + 1 + a) b) := by rw [ih]
      _ = (bitAt buf p * 2 ^ a + msbBits buf (p + 1) a) * 2 ^ b +
            msbBits buf (p + (a + 1)) b := by
          have hp : p + 1 + a = p + (a + 1) := by omega
          rw [hp, pow_add]
          ring
      _ = msbBits buf p (a + 1) * 2 ^ b + msbBits buf (p + (a + 1)) b := rfl

theorem byteDecomp :
    ∀ b < 256,
      ((b >>> (7 - 0)) &&& 1) * 2 ^ 7 + (((b >>> (7 - 1)) &&& 1) * 2 ^ 6 +
        (((b >>> (7 - 2)) &&& 1) * 2 ^ 5 + (((b >>> (7 - 3)) &&& 1) * 2 ^ 4 +
          (((b >>> (7 - 4)) &&& 1) * 2 ^ 3 + (((b >>> (7 - 5)) &&& 1) * 2 ^ 2 +
            (((b >>> (7 - 6)) &&& 1) * 2 ^ 1 + (((b >>> (7 - 7)) &&& 1) * 2 ^ 0 + 0))))))) = b := by
  decide

theorem getD_lt_of_isBytes {buf : List Nat} (hb : IsBytes buf) {j : Nat}
    (hj : j < buf.length) : buf.getD j 0 < 256 := by
  rw [List.getD_eq_getElem buf 0 hj]
  exact hb _ (List.getElem_mem hj)

theorem msb_byte {buf : List Nat} (hb : IsBytes buf) {j : Nat} (hj : j < buf.length) :
    msbBits buf (8 * j) 8 = buf.getD j 0 := by
  have hlt := getD_lt_of_isBytes hb hj
  have hbit : ∀ i, i < 8 → bitAt buf (8 * j + i) = (buf.getD j 0 >>> (7 - i)) &&& 1 := by
    intro i hi
    unfold bitAt
    have h1 : (8 * j + i) / 8 = j := by omega
    have h2 : (8 * j + i) % 8 = i := by omega
    rw [h1, h2]
  show bitAt buf (8 * j + 0) * 2 ^ 7 + (bitAt buf (8 * j + 1) * 2 ^ 6 +
    (bitAt buf (8 * j + 2) * 2 ^ 5 + (bitAt buf (8 * j + 3) * 2 ^ 4 +
    (bitAt buf (8 * j + 4) * 2 ^ 3 + (bitAt buf (8 * j + 5) * 2 ^ 2 +
    (bitAt buf (8 * j + 6) * 2 ^ 1 +
    (bitAt buf (8 * j + 7) * 2 ^ 0 + 0))))))) = buf.getD j 0
  rw [hbit 0 (by omega), hbit 1 (by omega), hbit 2 (by omega), hbit 3 (by omega),
    hbit 4 (by omega), hbit 5 (by omega), hbit 6 (by omega), hbit 7 (by omega)]
  exact byteDecomp _ hlt

theorem bytesBE_foldl (t : List Nat) :
    ∀ a, t.foldl (fun x b => x * 256 + b) a = a * 256 ^ t.length + bytesBE t := by
  induction t with
  | nil => intro a; simp [bytesBE]
  | cons b t ih =>
    intro a
    show t.foldl (fun x c => x * 256 + c) (a * 256 + b) = _
    rw [ih (a * 256 + b)]
    have hb : bytesBE (b :: t) = b * 256 ^ t.length + bytesBE t := by
      show t.foldl (fun x c => x * 256 + c) (0 * 256 + b) = _
      rw [ih (0 * 256 + b)]
      simp
    rw [hb]
    simp [List.length_cons, pow_succ]
    ring

theorem bytesBE_cons (b : Nat) (t : List Nat) :
    bytesBE (b :: t) = b * 256 ^ t.length + bytesBE t := by
  show t.foldl (fun x c => x * 256 + c) (0 * 256 + b) = _
  rw [bytesBE_foldl t (0 * 256 + b)]
  simp

theorem msb_bytes {buf : List Nat} (hb : IsBytes buf) :
    ∀ k j, j + k ≤ buf.length →
      msbBits buf (8 * j) (8 * k) = bytesBE ((buf.drop j).take k) := by
  intro k
  induction k with
  | zero => intro j _; simp [msbBits, bytesBE]
  | succ k ih =>
    intro j hjk
    have hj : j < buf.length := by omega
    have hsplit : 8 * (k + 1) = 8 + 8 * k := by ring
    rw [hsplit, msbBits_add buf 8 (8 * j) (8 * k)]
    rw [msb_byte hb hj]
    have h8 : 8 * j + 8 = 8 * (j + 1) := by ring
    rw [h8, ih (j + 1) (by omega)]
    have hdrop : buf.drop j = buf.getD j 0 :: buf.drop (j + 1) := by
      rw [List.getD_eq_getElem buf 0 hj]
      exact List.drop_eq_getElem_cons hj
    rw [hdrop]
    show _ = bytesBE (buf.getD j 0 :: (buf.drop (j + 1)).take k)
    rw [bytesBE_cons]
    have hlen : ((buf.drop (j + 1)).take k).length = k := by
      simp [List.length_take, List.length_drop]
      omega
    rw [hlen]
    norm_num [pow_mul]

theorem readLoop_ok {buf : List Nat} :
    ∀ (n p acc : Nat), p + n ≤ 8 * buf.length → acc < 2 ^ 64 →
      readLoop buf (p : Int) n acc = some ((acc * 2 ^ n + msbBits buf p n) % 2 ^ 64) := by
  intro n
  induction n with
  | zero =>
    intro p acc _ hacc
    simp only [readLoop, msbBits, pow_zero, mul_one, Nat.add_zero]
    rw [Nat.mod_eq_of_lt hacc]
  | succ n ih =>
    intro p acc hpn hacc
    have hp8 : p / 8 < buf.length := by omega
    have hidx : goIdx buf (tdiv8 (p : Int)) = some (buf.getD (p / 8) 0) := by
      rw [tdiv8_coe]
      unfold goIdx
      rw [if_pos (Int.natCast_nonneg _), Int.toNat_natCast,
        List.getElem?_eq_getElem hp8, List.getD_eq_getElem buf 0 hp8]
    show readLoop buf (p : Int) (n + 1) acc = _
    rw [readLoop, hidx]
    have hsh : ((7 : Int) - tmod8 (p : Int)).toNat = 7 - p % 8 := by
      rw [tmod8_coe]
      omega
    rw [hsh]
    show readLoop buf ((p : Int) + 1) n ((acc * 2 + bitAt buf p) % 2 ^ 64) = _
    have hcast : (p : Int) + 1 = ((p + 1 : Nat) : Int) := by push_cast; ring
    rw [hcast, ih (p + 1) _ (by omega) (Nat.mod_lt _ (by norm_num))]
    congr 1
    have hstep : (acc * 2 + bitAt buf p) % 2 ^ 64 * 2 ^ n % 2 ^ 64 =
        (acc * 2 + bitAt buf p) * 2 ^ n % 2 ^ 64 := Nat.mod_mul_mod
    have hm : ((acc * 2 + bitAt buf p) % 2 ^ 64 * 2 ^ n + msbBits buf (p + 1) n) % 2 ^ 64 =
        ((acc * 2 + bitAt buf p) * 2 ^ n + msbBits buf (p + 1) n) % 2 ^ 64 := by
      conv_lhs => rw [Nat.add_mod, hstep, ← Nat.add_mod]
    rw [hm]
    show _ = (acc * 2 ^ (n + 1) + (bitAt buf p * 2 ^ n + msbBits buf (p + 1) n)) % 2 ^ 64
    congr 1
    ring

end Grib

namespace Grib

theorem read_zero (r : BR) : read r 0 = .ok 0 r := by
  simp [read]

theorem read_fail {buf : List Nat} (p : Int) {n : Int} (hn : n ≠ 0)
    (h : 8 * (buf.length : Int) < p + n) : read ⟨buf, p⟩ n = .fail ⟨buf, p⟩ := by
  unfold read
  rw [if_neg hn, if_pos h]

theorem read_ok {buf : List Nat} (hb : IsBytes buf) (p n : Nat) (hn : n ≤ 64)
    (hpn : p + n ≤ 8 * buf.length) :
    read ⟨buf, (p : Int)⟩ (n : Int) = .ok (msbBits buf p n) ⟨buf, ((p + n : Nat) : Int)⟩ := by
  by_cases hn0 : n = 0
  · subst hn0
    simp [read, msbBits]
  · have hn0' : (n : Int) ≠ 0 := by exact_mod_cast hn0
    have hguard : ¬(8 * (buf.length : Int) < (p : Int) + (n : Int)) := by
      omega
    have hcast : (p : Int) + (n : Int) = ((p + n : Nat) : Int) := by push_cast; ring
    have hslow : readLoop buf (p : Int) ((n : Int)).toNat 0 = some (msbBits buf p n) := by
      rw [Int.toNat_natCast, readLoop_ok n p 0 hpn (by norm_num)]
      congr 1
      rw [zero_mul, zero_add]
      exact Nat.mod_eq_of_lt (lt_of_lt_of_le (msbBits_lt buf p n)
        (Nat.pow_le_pow_right (by norm_num) hn))
    unfold read
    rw [if_neg hn0', if_neg hguard]
    by_cases hfast : tmod8 (p : Int) = 0 ∧
        ((n : Int) = 8 ∨ (n : Int) = 16 ∨ (n : Int) = 32 ∨ (n : Int) = 64)
    · rw [if_pos hfast]
      obtain ⟨hal, hn8⟩ := hfast
      have hal' : p % 8 = 0 := by
        rw [tmod8_coe] at hal
        exact_mod_cast hal
      have hnn : n = 8 ∨ n = 16 ∨ n = 32 ∨ n = 64 := by
        rcases hn8 with h | h | h | h
        · left; exact_mod_cast h
        · right; left; exact_mod_cast h
        · right; right; left; exact_mod_cast h
        · right; right; right; exact_mod_cast h
      have hn8' : n % 8 = 0 := by rcases hnn with h | h | h | h <;> omega
      have hdp : tdiv8 (p : Int) = ((p / 8 : Nat) : Int) := tdiv8_coe p
      have hdn : tdiv8 (n : Int) = ((n / 8 : Nat) : Int) := tdiv8_coe n
      rw [hdp, hdn, Int.toNat_natCast, Int.toNat_natCast]
      have hcond : (0 : Int) ≤ ((p / 8 : Nat) : Int) ∧ p / 8 + n / 8 ≤ buf.length :=
        ⟨Int.natCast_nonneg _, by omega⟩
      rw [if_pos hcond]
      have hmb : msbBits buf (8 * (p / 8)) (8 * (n / 8)) =
          bytesBE ((buf.drop (p / 8)).take (n / 8)) :=
        msb_bytes hb (n / 8) (p / 8) (by omega)
      have hp8 : 8 * (p / 8) = p := by omega
      have hq8 : 8 * (n / 8) = n := by omega
      rw [hp8, hq8] at hmb
      rw [← hmb, hcast]
    · rw [if_neg hfast, hslow, hcast]

theorem readSlowOnly_ok {buf : List Nat} (p n : Nat) (hn : n ≤ 64)
    (hpn : p + n ≤ 8 * buf.length) :
    readSlowOnly ⟨buf, (p : Int)⟩ (n : Int) =
      .ok (msbBits buf p n) ⟨buf, ((p + n : Nat) : Int)⟩ := by
  by_cases hn0 : n = 0
  · subst hn0
    simp [readSlowOnly, msbBits]
  · have hn0' : (n : Int) ≠ 0 := by exact_mod_cast hn0
    have hguard : ¬(8 * (buf.length : Int) < (p : Int) + (n : Int)) := by
      omega
    have hcast : (p : Int) + (n : Int) = ((p + n : Nat) : Int) := by push_cast; ring
    have hslow : readLoop buf (p : Int) ((n : Int)).toNat 0 = some (msbBits buf p n) := by
      rw [Int.toNat_natCast, readLoop_ok n p 0 hpn (by norm_num)]
      congr 1
      rw [zero_mul, zero_add]
      exact Nat.mod_eq_of_lt (lt_of_lt_of_le (msbBits_lt buf p n)
        (Nat.pow_le_pow_right (by norm_num) hn))
    unfold readSlowOnly
    rw [if_neg hn0', if_neg hguard, hslow, hcast]

theorem align_coe (buf : List Nat) (p : Nat) :
    BR.align ⟨buf, (p : Int)⟩ = ⟨buf, ((alignUp p : Nat) : Int)⟩ := by
  unfold BR.align alignUp
  by_cases h : tmod8 (p : Int) ≠ 0
  · rw [if_pos h]
    rw [tmod8_coe] at h ⊢
    have hp : p % 8 ≠ 0 := by
      intro hc
      apply h
      rw [hc]
      rfl
    congr 1
    push_cast
    omega
  · rw [if_neg h]
    rw [tmod8_coe] at h
    push_neg at h
    have hp : p % 8 = 0 := by exact_mod_cast h
    congr 1
    have : (p + 7) / 8 = p / 8 := by omega
    rw [this]
    omega

end Grib

namespace Grib

/-- C6: For every bit reader over a `b`-byte buffer with cursor `p ∈ [0, 8b]`
and every `n` with `0 ≤ n ≤ 64`: `read n` fails exactly when `p + n > 8b`,
and on failure the cursor is unchanged; on success it returns the `n` bits
starting at bit `p`, interpreted MSB-first within each byte and within the
result, and the cursor becomes exactly `p + n`; `read 0` always succeeds,
returning 0 without advancing the cursor. -/
theorem C6_read_spec (buf : List Nat) (p n : Nat) (hb : IsBytes buf)
    (hp : p ≤ 8 * buf.length) (hn : n ≤ 64) :
    (8 * buf.length < p + n → read ⟨buf, (p : Int)⟩ (n : Int) = .fail ⟨buf, (p : Int)⟩) ∧
    (p + n ≤ 8 * buf.length →
      read ⟨buf, (p : Int)⟩ (n : Int) = .ok (msbBits buf p n) ⟨buf, ((p + n : Nat) : Int)⟩) ∧
    (n = 0 → read ⟨buf, (p : Int)⟩ (n : Int) = .ok 0 ⟨buf, (p : Int)⟩) := by
  refine ⟨?_, ?_, ?_⟩
  · intro hover
    have hn0 : (n : Int) ≠ 0 := by
      have : n ≠ 0 := by omega
      exact_mod_cast this
    exact read_fail (p : Int) hn0 (by omega)
  · intro hin
    exact read_ok hb p n hn hin
  · intro h0
    subst h0
    exact read_zero _
/-- Witness for C6 at a concrete input: buffer `[0xA5, 0x0F]`, cursor 4,
8-bit read crossing a byte boundary yields `0b01010000 = 80`. -/
theorem C6_read_spec_witness :
    read ⟨[165, 15], ((4 : Nat) : Int)⟩ ((8 : Nat) : Int) =
      .ok (msbBits [165, 15] 4 8) ⟨[165, 15], ((12 : Nat) : Int)⟩ ∧
    msbBits [165, 15] 4 8 = 80 :=
  ⟨(C6_read_spec [165, 15] 4 8 (by decide) (by decide) (by decide)).2.1 (by decide), by decide⟩

/-- C10: For every buffer, every byte-aligned cursor position, and every
`n ∈ {8, 16, 32, 64}` such that the read is in range, the big-endian fast
path of `read` returns exactly the same value and final cursor position as
the generic bit-by-bit path would. -/
theorem C10_fast_path_eq_generic (buf : List Nat) (p n : Nat) (hb : IsBytes buf)
    (hal : p % 8 = 0) (hn : n = 8 ∨ n = 16 ∨ n = 32 ∨ n = 64)
    (hrange : p + n ≤ 8 * buf.length) :
    read ⟨buf, (p : Int)⟩ (n : Int) = readSlowOnly ⟨buf, (p : Int)⟩ (n : Int) := by
  have hn64 : n ≤ 64 := by rcases hn with h | h | h | h <;> omega
  rw [read_ok hb p n hn64 hrange, readSlowOnly_ok p n hn64 hrange]
/-- Witness for C10 at a concrete input: aligned 16-bit read of `[1, 2]`. -/
theorem C10_fast_path_eq_generic_witness :
    read ⟨[1, 2], ((0 : Nat) : Int)⟩ ((16 : Nat) : Int) =
      readSlowOnly ⟨[1, 2], ((0 : Nat) : Int)⟩ ((16 : Nat) : Int) :=
  C10_fast_path_eq_generic [1, 2] 0 16 (by decide) (by decide) (by decide) (by decide)

end Grib

namespace Grib

theorem countSetBits_mono (bm : List Nat) {i j : Nat} (h : i ≤ j) :
    countSetBits bm i ≤ countSetBits bm j := by
  induction j with
  | zero =>
    have h0 : i = 0 := Nat.le_zero.mp h
    subst h0
    exact le_refl _
  | succ j ih =>
    rcases Nat.lt_or_ge i (j + 1) with hlt | hge
    · have := ih (by omega)
      show _ ≤ countSetBits bm j + _
      split <;> omega
    · have : i = j + 1 := by omega
      subst this
      exact le_refl _

theorem abLoop_ok (vals : List GF) (bm : List Nat) :
    ∀ (k i : Nat), countSetBits bm (i + k) ≤ vals.length →
      abLoop vals bm k i (countSetBits bm i) =
        .ok ((List.range k).map (fun r =>
          if bitmapBit bm (i + r) then vals.getD (countSetBits bm (i + r)) GF.nan
          else GF.nan)) := by
  intro k
  induction k with
  | zero => intro i _; simp [abLoop]
  | succ k ih =>
    intro i hlen
    show (if bitmapBit bm i then _ else _) = _
    by_cases hbit : bitmapBit bm i
    · rw [if_pos hbit]
      have hvi : countSetBits bm i < vals.length := by
        have h1 : countSetBits bm (i + 1) = countSetBits bm i + 1 := by
          show countSetBits bm i + _ = _
          rw [if_pos hbit]
        have h2 : countSetBits bm (i + 1) ≤ countSetBits bm (i + (k + 1)) :=
          countSetBits_mono bm (by omega)
        omega
      have hget : vals[countSetBits bm i]? = some (vals.getD (countSetBits bm i) GF.nan) := by
        rw [List.getElem?_eq_getElem hvi, List.getD_eq_getElem vals GF.nan hvi]
      rw [hget]
      have hsucc : countSetBits bm i + 1 = countSetBits bm (i + 1) := by
        show _ = countSetBits bm i + _
        rw [if_pos hbit]
      have hshift : i + 1 + k = i + (k + 1) := by omega
      have hlen' : countSetBits bm (i + 1 + k) ≤ vals.length := by rw [hshift]; exact hlen
      rw [hsucc, ih (i + 1) hlen']
      show Except.ok _ = _
      congr 1
      rw [List.range_succ_eq_map, List.map_cons, List.map_map]
      congr 1
      · rw [Nat.add_zero, if_pos hbit]
      · apply List.map_congr_left
        intro r _
        show (if bitmapBit bm (i + 1 + r) then _ else _) = (if bitmapBit bm (i + (r + 1)) then _ else _)
        have : i + 1 + r = i + (r + 1) := by omega
        rw [this]
    · rw [if_neg hbit]
      have hsame : countSetBits bm i = countSetBits bm (i + 1) := by
        show _ = countSetBits bm i + _
        rw [if_neg hbit]
        omega
      have hshift : i + 1 + k = i + (k + 1) := by omega
      have hlen' : countSetBits bm (i + 1 + k) ≤ vals.length := by rw [hshift]; exact hlen
      rw [hsame, ih (i + 1) hlen']
      show Except.ok _ = _
      congr 1
      rw [List.range_succ_eq_map, List.map_cons, List.map_map]
      congr 1
      · rw [Nat.add_zero, if_neg hbit]
      · apply List.map_congr_left
        intro r _
        show (if bitmapBit bm (i + 1 + r) then _ else _) = (if bitmapBit bm (i + (r + 1)) then _ else _)
        have : i + 1 + r = i + (r + 1) := by omega
        rw [this]

end Grib

namespace Grib

/-- C7: For every packed value vector `v`, bitmap byte string `bm`, and
total point count `T ≥ 0`: `applyBitmap v bm T` fails if and only if the
number of set bits among positions `0..T-1` of `bm` (bytes past the end
treated as clear) differs from the length of `v`; on success it returns a
vector of exactly length `T` whose position `k` carries the next unconsumed
element of `v` when bit `k` is set and the quiet-NaN sentinel when bit `k`
is clear. -/
theorem C7_applyBitmap_spec (vals : List GF) (bm : List Nat) (T : Int) (hT : 0 ≤ T) :
    (countSetBits bm T.toNat ≠ vals.length →
      applyBitmap vals bm T = .error (.err .mismatch)) ∧
    (countSetBits bm T.toNat = vals.length →
      applyBitmap vals bm T = .ok ((List.range T.toNat).map (fun k =>
        if bitmapBit bm k then vals.getD (countSetBits bm k) GF.nan else GF.nan))) := by
  constructor
  · intro hne
    unfold applyBitmap
    rw [if_pos hne]
  · intro heq
    unfold applyBitmap
    rw [if_neg (by omega), if_neg (by omega)]
    have hlen : countSetBits bm (0 + T.toNat) ≤ vals.length := by
      rw [Nat.zero_add, heq]
    have h2 : abLoop vals bm T.toNat 0 0 =
        .ok ((List.range T.toNat).map (fun r =>
          if bitmapBit bm (0 + r) then vals.getD (countSetBits bm (0 + r)) GF.nan
          else GF.nan)) :=
      abLoop_ok vals bm T.toNat 0 hlen
    rw [h2]
    congr 1
    apply List.map_congr_left
    intro r _
    rw [Nat.zero_add]
/-- Witness for C7: bitmap byte `0x90` over a 2×2·2 grid of 8 points with
two packed values, as in the repository's own bitmap test. -/
theorem C7_applyBitmap_spec_witness :
    applyBitmap [GF.num 10, GF.num 40] [144] 8 =
      .ok ((List.range (8 : Int).toNat).map (fun k =>
        if bitmapBit [144] k then [GF.num 10, GF.num 40].getD (countSetBits [144] k) GF.nan
        else GF.nan)) ∧
    (List.range (8 : Int).toNat).map (fun k =>
        if bitmapBit [144] k then [GF.num 10, GF.num 40].getD (countSetBits [144] k) GF.nan
        else GF.nan) =
      [GF.num 10, GF.nan, GF.nan, GF.num 40, GF.nan, GF.nan, GF.nan, GF.nan] :=
  ⟨(C7_applyBitmap_spec [GF.num 10, GF.num 40] [144] 8 (by decide)).2 (by decide), by decide⟩

end Grib

namespace Grib

theorem readNInts_ok {buf : List Nat} (hb : IsBytes buf) (w : Nat) (hw : w ≤ 64) :
    ∀ (c p : Nat), p + c * w ≤ 8 * buf.length →
      readNInts ⟨buf, (p : Int)⟩ (w : Int) c =
        .ok ((List.range c).map (fun i => msbBits buf (p + i * w) w),
          ⟨buf, ((p + c * w : Nat) : Int)⟩) := by
  intro c
  induction c with
  | zero => intro p _; simp [readNInts]
  | succ c ih =>
    intro p hrange
    have hmul : w + c * w = (c + 1) * w := by ring
    have h1 : p + w ≤ 8 * buf.length := by omega
    have h2 : (p + w) + c * w ≤ 8 * buf.length := by omega
    show (match read ⟨buf, (p : Int)⟩ (w : Int) with
      | .ok v br' => do
        let x ← readNInts br' (w : Int) c
        match x with
        | (vs, br'') => Except.ok (v :: vs, br'')
      | .fail _ => .error (.err .overflow)
      | .crash => .error .crash) = _
    rw [read_ok hb p w hw h1]
    dsimp only
    rw [ih (p + w) h2]
    refine congrArg Except.ok (Prod.ext ?_ ?_)
    · show msbBits buf p w :: (List.range c).map (fun i => msbBits buf (p + w + i * w) w) =
        (List.range (c + 1)).map (fun i => msbBits buf (p + i * w) w)
      rw [List.range_succ_eq_map, List.map_cons, List.map_map]
      congr 1
      · rw [Nat.zero_mul, Nat.add_zero]
      · apply List.map_congr_left
        intro r _
        show msbBits buf (p + w + r * w) w = msbBits buf (p + (r + 1) * w) w
        have hr : p + w + r * w = p + (r + 1) * w := by ring
        rw [hr]
    · show BR.mk buf (((p + w) + c * w : Nat) : Int) = BR.mk buf ((p + (c + 1) * w : Nat) : Int)
      congr 1
      omega

theorem readNInts_err {buf : List Nat} (hb : IsBytes buf) (w : Nat) (hw1 : 1 ≤ w)
    (hw : w ≤ 64) :
    ∀ (c p : Nat), p ≤ 8 * buf.length → 8 * buf.length < p + c * w →
      readNInts ⟨buf, (p : Int)⟩ (w : Int) c = .error (.err .overflow) := by
  intro c
  induction c with
  | zero => intro p hp hover; omega
  | succ c ih =>
    intro p hp hover
    have hmul : w + c * w = (c + 1) * w := by ring
    show (match read ⟨buf, (p : Int)⟩ (w : Int) with
      | .ok v br' => do
        let x ← readNInts br' (w : Int) c
        match x with
        | (vs, br'') => Except.ok (v :: vs, br'')
      | .fail _ => .error (.err .overflow)
      | .crash => .error .crash) = _
    by_cases hfirst : p + w ≤ 8 * buf.length
    · rw [read_ok hb p w hw hfirst]
      dsimp only
      have hrec := ih (p + w) hfirst (by omega)
      rw [hrec]
      rfl
    · have hn0 : (w : Int) ≠ 0 := by
        have hne : w ≠ 0 := by omega
        exact_mod_cast hne
      rw [read_fail (p : Int) hn0 (by omega)]

end Grib

namespace Grib

/-- C8: For every DRS-0 parameter set (reference value `R`, binary scale
`E`, decimal scale `D`, bits-per-value in `[0, 64]`, value count `N ≥ 0`)
and every §7 section (5-byte header plus payload): if bits-per-value is 0,
`unpackDRS0` returns `N` values every one of which equals `R / 10^D`,
reading nothing from the payload; otherwise it reads `N` consecutive
unsigned integers `X_i` of that bit-width, MSB-first, from the payload and
returns `Y_i = (R + 2^E·X_i) / 10^D` for each (powers exact over ℚ),
failing with the bit reader's overflow error exactly when the payload has
fewer than `N`·bits-per-value bits. -/
theorem C8_unpackDRS0_spec (sec7 : List Nat) (p : DRS0Params) (hb : IsBytes sec7)
    (hlen : 5 ≤ sec7.length) (hN : 0 ≤ p.N) (hw0 : 0 ≤ p.Nbits) (hw : p.Nbits ≤ 64) :
    (p.Nbits = 0 → unpackDRS0 sec7 p =
      .ok (List.replicate p.N.toNat (gfConst p.ReferenceValue p.DecimalScaleFactor))) ∧
    (1 ≤ p.Nbits →
      (p.N * p.Nbits ≤ 8 * ((sec7.length : Int) - 5) →
        unpackDRS0 sec7 p = .ok ((List.range p.N.toNat).map (fun i =>
          gfScale p.ReferenceValue p.BinaryScaleFactor p.DecimalScaleFactor
            ((msbBits (sec7.drop 5) (i * p.Nbits.toNat) p.Nbits.toNat : Nat) : Int)))) ∧
      (8 * ((sec7.length : Int) - 5) < p.N * p.Nbits →
        unpackDRS0 sec7 p = .error (.err .overflow))) := by
  have hb' : IsBytes (sec7.drop 5) := fun b hbm => hb b (List.drop_subset 5 sec7 hbm)
  have hdlen : (sec7.drop 5).length = sec7.length - 5 := List.length_drop 5 sec7
  have hcastN : ((p.N.toNat : Nat) : Int) = p.N := Int.toNat_of_nonneg hN
  have hcastW : ((p.Nbits.toNat : Nat) : Int) = p.Nbits := Int.toNat_of_nonneg hw0
  refine ⟨?_, ?_⟩
  · intro h0
    unfold unpackDRS0
    rw [if_neg (by omega), if_neg (by omega), if_pos h0]
  · intro h1
    have hwne : p.Nbits ≠ 0 := by omega
    constructor
    · intro hfit
      have hfit' : 0 + p.N.toNat * p.Nbits.toNat ≤ 8 * (sec7.drop 5).length := by
        rw [hdlen]
        have := hcastN
        have := hcastW
        have hprod : ((p.N.toNat * p.Nbits.toNat : Nat) : Int) = p.N * p.Nbits := by
          push_cast
          rw [hcastN, hcastW]
        omega
      unfold unpackDRS0
      rw [if_neg (by omega), if_neg (by omega), if_neg hwne]
      have hr := readNInts_ok hb' p.Nbits.toNat (by omega) p.N.toNat 0 hfit'
      rw [show ((0 : Nat) : Int) = (0 : Int) from rfl, hcastW] at hr
      rw [hr]
      show Except.ok _ = _
      congr 1
      rw [List.map_map]
      apply List.map_congr_left
      intro i _
      show gfScale _ _ _ ((msbBits (sec7.drop 5) (0 + i * p.Nbits.toNat) p.Nbits.toNat : Nat) : Int) = _
      rw [Nat.zero_add]
    · intro hover
      have hover' : 8 * (sec7.drop 5).length < 0 + p.N.toNat * p.Nbits.toNat := by
        rw [hdlen]
        have hprod : ((p.N.toNat * p.Nbits.toNat : Nat) : Int) = p.N * p.Nbits := by
          push_cast
          rw [hcastN, hcastW]
        omega
      unfold unpackDRS0
      rw [if_neg (by omega), if_neg (by omega), if_neg hwne]
      have hr := readNInts_err hb' p.Nbits.toNat (by omega) (by omega) p.N.toNat 0
        (by omega) hover'
      rw [show ((0 : Nat) : Int) = (0 : Int) from rfl, hcastW] at hr
      rw [hr]
      rfl
/-- Witness for C8: four 8-bit values 1,2,3,4 with `R = E = D = 0`
(scenario S5 of the specification); the raw integers decoded from the
payload are exactly 1,2,3,4. -/
theorem C8_unpackDRS0_spec_witness :
    unpackDRS0 [0, 0, 0, 9, 7, 1, 2, 3, 4] ⟨GF.num 0, 0, 0, 8, 0, 4⟩ =
      .ok ((List.range (4 : Int).toNat).map (fun i =>
        gfScale (GF.num 0) 0 0
          ((msbBits ([0, 0, 0, 9, 7, 1, 2, 3, 4].drop 5) (i * (8 : Int).toNat)
            (8 : Int).toNat : Nat) : Int))) ∧
    (List.range (4 : Int).toNat).map (fun i =>
        msbBits ([0, 0, 0, 9, 7, 1, 2, 3, 4].drop 5) (i * (8 : Int).toNat) (8 : Int).toNat) =
      [1, 2, 3, 4] :=
  ⟨((C8_unpackDRS0_spec [0, 0, 0, 9, 7, 1, 2, 3, 4] ⟨GF.num 0, 0, 0, 8, 0, 4⟩
      (by decide) (by decide) (by decide) (by decide) (by decide)).2
      (by decide)).1 (by decide),
    by decide⟩

end Grib

namespace Grib

/-- C1 (claim refuted — code bug): `DecodeMessage` is claimed total and
panic-free on every byte slice, in particular for crafted inputs whose
DRS-53 group-width deltas make a computed group width negative.  On the
concrete well-formed message `c1msg` (group-width delta `2^63` giving
group 0 the computed width `−2^63`), the negative-width read drives the
bit cursor backwards past zero and the following positive-width read
indexes the buffer at a negative offset: a runtime panic (`crash`), not a
structured error or a decoded field. -/
theorem C1_decodeMessage_crashes :
    DecodeMessage 10 c1msg = .error .crash := by decide

/-- C2 (claim refuted — code bug): the section walk of `DecodeMessage` is
claimed to terminate on every input.  On the 21-byte message `c2msg` —
valid Section 0 followed by a section whose 4-byte length field is 0 and
whose section number is 1 (a skipped kind) — `sectionAt` returns
`next = off`, the loop state repeats identically, and the walk runs
forever: for every fuel bound the embedded loop is still running. -/
theorem C2_decodeMessage_nonterminating :
    ∀ fuel : Nat, DecodeMessage fuel c2msg = .error .diverge := by
  intro fuel
  induction fuel with
  | zero => rfl
  | succ n ih =>
    have hstep : DecodeMessage (n + 1) c2msg = DecodeMessage n c2msg := rfl
    rw [hstep, ih]

/-- C3 counterexample: a 16-byte buffer with correct magic but edition
byte 3 is accepted by `parseSection0`, and a complete, otherwise valid
message whose edition byte is 3 decodes successfully — contradicting the
claim that every message whose edition byte differs from 2 is rejected. -/
theorem C3_counterexample :
    parseSection0 ed3sec0 = .ok ⟨0, 3, 0⟩ ∧ pIsOk (DecodeMessage 10 ed3msg) = true :=
  ⟨by decide, by decide⟩

/-- C3 (amended): `parseSection0` fails if and only if the buffer is
shorter than 16 bytes or the first four bytes are not the magic "GRIB";
the edition byte is extracted but not validated, so messages with an
edition other than 2 are not rejected. -/
theorem C3_parseSection0_amended (b : List Nat) :
    (∃ e, parseSection0 b = .error e) ↔ b.length < 16 ∨ b.take 4 ≠ [71, 82, 73, 66] := by
  unfold parseSection0
  split_ifs with h1 h2
  · exact ⟨fun _ => Or.inl h1, fun _ => ⟨.err .tooShort, rfl⟩⟩
  · exact ⟨fun _ => Or.inr h2, fun _ => ⟨.err .badMagic, rfl⟩⟩
  · constructor
    · rintro ⟨e, he⟩
      exact absurd he (by simp)
    · rintro (h | h)
      · exact absurd h h1
      · exact absurd h h2

/-- C4 counterexample: with length-delta bit-width 64, length increment 1
and reference group length 0, a length-delta of `2^63` read from the
stream yields the computed (stored) group length `−2^63`, not the claimed
`delta·LengthIncrement + RefGroupLength = 2^63`: the Go code reinterprets
the unsigned delta as a two's-complement `int64`. -/
theorem C4_counterexample :
    readLengthsPhase ⟨c4buf, 0⟩ c4params = .ok ([-(2 ^ 63), 5], ⟨c4buf, 128⟩) ∧
    msbBits c4buf 0 64 = 2 ^ 63 ∧
    (-(2 ^ 63) : Int) ≠ (2 ^ 63 : Int) * 1 + 0 :=
  ⟨by decide, by decide, by decide⟩

/-- C4 (amended): in the group-length phase with NG ≥ 1 and enough bits,
for each group `i` in `0..NG−2` the computed length is the 64-bit-wrapped
value of (the two's-complement reinterpretation of delta_i) ·
LengthIncrement + RefGroupLength, where delta_i is the i-th length-delta
read from the stream (for deltas below `2^63` with no overflow this equals
`delta_i·LengthIncrement + RefGroupLength`); the final group's delta is
still consumed — the cursor advances over all NG deltas — but its value is
discarded, the final length being the DRS header's LenLastGroup; afterwards
the reader is aligned to the next byte boundary. -/
theorem C4_readLengthsPhase_amended (buf : List Nat) (p : DRS53Params) (pos : Nat)
    (hb : IsBytes buf) (hng : 1 ≤ p.NG) (hw0 : 0 ≤ p.BitsGroupLength)
    (hw : p.BitsGroupLength ≤ 64)
    (hfit : pos + p.NG.toNat * p.BitsGroupLength.toNat ≤ 8 * buf.length) :
    readLengthsPhase ⟨buf, (pos : Int)⟩ p =
      .ok (((List.range (p.NG.toNat - 1)).map (fun i =>
          wrap64 (toInt64 (msbBits buf (pos + i * p.BitsGroupLength.toNat)
              p.BitsGroupLength.toNat) * (p.LengthIncrement : Int) +
            (p.RefGroupLength : Int))))
        ++ [((p.LenLastGroup : Nat) : Int)],
        ⟨buf, ((alignUp (pos + p.NG.toNat * p.BitsGroupLength.toNat) : Nat) : Int)⟩) := by
  have hcastW : ((p.BitsGroupLength.toNat : Nat) : Int) = p.BitsGroupLength :=
    Int.toNat_of_nonneg hw0
  have hgpos : 1 ≤ p.NG.toNat := by omega
  have hw64 : p.BitsGroupLength.toNat ≤ 64 := by omega
  have hsub : (p.NG.toNat - 1) * p.BitsGroupLength.toNat + p.BitsGroupLength.toNat =
      p.NG.toNat * p.BitsGroupLength.toNat := by
    have h2 : (p.NG.toNat - 1) * p.BitsGroupLength.toNat =
        p.NG.toNat * p.BitsGroupLength.toNat - 1 * p.BitsGroupLength.toNat :=
      Nat.sub_mul _ _ _
    have h1 : 1 * p.BitsGroupLength.toNat ≤ p.NG.toNat * p.BitsGroupLength.toNat :=
      Nat.mul_le_mul_right _ hgpos
    omega
  have hfit1 : pos + (p.NG.toNat - 1) * p.BitsGroupLength.toNat ≤ 8 * buf.length := by
    omega
  unfold readLengthsPhase
  rw [← hcastW]
  rw [readNInts_ok hb p.BitsGroupLength.toNat hw64 (p.NG.toNat - 1) pos hfit1]
  show (match read ⟨buf, ((pos + (p.NG.toNat - 1) * p.BitsGroupLength.toNat : Nat) : Int)⟩
      ((p.BitsGroupLength.toNat : Nat) : Int) with
    | .ok _ br2 =>
      Except.ok ((((List.range (p.NG.toNat - 1)).map
          (fun i => msbBits buf (pos + i * p.BitsGroupLength.toNat) p.BitsGroupLength.toNat)).map
        (fun v => wrap64 (toInt64 v * (p.LengthIncrement : Int) + (p.RefGroupLength : Int))))
        ++ [((p.LenLastGroup : Nat) : Int)], br2.align)
    | .fail _ => Except.error (GoPanic.err ETag.overflow)
    | .crash => Except.error GoPanic.crash) = _
  rw [read_ok hb (pos + (p.NG.toNat - 1) * p.BitsGroupLength.toNat) p.BitsGroupLength.toNat
    hw64 (by omega)]
  show Except.ok (_, BR.align ⟨buf,
    ((pos + (p.NG.toNat - 1) * p.BitsGroupLength.toNat + p.BitsGroupLength.toNat : Nat) : Int)⟩) = _
  rw [align_coe]
  have hup : pos + (p.NG.toNat - 1) * p.BitsGroupLength.toNat + p.BitsGroupLength.toNat =
      pos + p.NG.toNat * p.BitsGroupLength.toNat := by omega
  rw [hup, List.map_map]
  rfl
/-- Witness for the amended C4: NG = 2, 4-bit deltas over the byte `0x12`
(deltas 1 and 2, the 2 consumed and discarded), increment 1, reference
length 0, last group length 9. -/
theorem C4_readLengthsPhase_amended_witness :
    readLengthsPhase ⟨[18], ((0 : Nat) : Int)⟩
        ⟨GF.num 0, 0, 0, 0, 0, 0, 0, GF.num 0, GF.num 0, 2, 0, 0, 0, 1, 9, 4, 1, 1⟩ =
      .ok (((List.range ((2 : Int).toNat - 1)).map (fun i =>
          wrap64 (toInt64 (msbBits [18] (0 + i * (4 : Int).toNat) (4 : Int).toNat) *
            ((1 : Nat) : Int) + ((0 : Nat) : Int))))
        ++ [((9 : Nat) : Int)],
        ⟨[18], ((alignUp (0 + (2 : Int).toNat * (4 : Int).toNat) : Nat) : Int)⟩) :=
  C4_readLengthsPhase_amended [18]
    ⟨GF.num 0, 0, 0, 0, 0, 0, 0, GF.num 0, GF.num 0, 2, 0, 0, 0, 1, 9, 4, 1, 1⟩ 0
    (by decide) (by decide) (by decide) (by decide) (by decide)

/-- C5 (claim refuted — code bug): the claim says `unpackDRS53` errors
whenever the running sum of group lengths exceeds 10 000 000.  With group
lengths `[1, 2^63−1, 2^63−1, 3]` the running sum reaches `2^63` after two
groups — far above the cap — but the Go `int64` accumulator wraps to
`−2^63`, evading the `total > maxTotal` check (`sumLengths` accepts with
total 2); decoding then proceeds and, on the concrete input `c5sec7`,
panics in the grouped-data phase instead of returning the limit error. -/
theorem C5_total_cap_bypassed :
    sumLengths [1, 2 ^ 63 - 1, 2 ^ 63 - 1, 3] 0 = .ok 2 ∧
    (maxTotal : Int) < 1 + (2 ^ 63 - 1) ∧
    unpackDRS53 c5sec7 c5params = .error .crash :=
  ⟨by decide, by decide, by decide⟩

end Grib

namespace Grib

/-- C9: For every decoded field (non-degenerate grid with the decoder's
invariant `length(vals) = Ni·Nj`) and every `(lat, lon)` query, the
nearest-neighbour `Lookup` computes the grid indices `(i, j)` via the
forward Lambert projection; if `(i, j)` lies outside `[0, Ni) × [0, Nj)`
it returns the quiet-NaN sentinel, and otherwise it returns element
`j·Ni + i` of the row-major value vector — in both cases it never faults
(the result is never the panic marker `none`). -/
theorem C9_lookup_spec (f : Field) (lat lon : ℝ)
    (hNi : 0 < f.Grid.Ni) (hNj : 0 < f.Grid.Nj)
    (hlen : (f.Vals.length : Int) = f.Grid.Ni * f.Grid.Nj) :
    f.Lookup lat lon = some (
      if (f.Grid.LatLonToIJ lat lon).1 < 0 ∨ f.Grid.Ni ≤ (f.Grid.LatLonToIJ lat lon).1 ∨
          (f.Grid.LatLonToIJ lat lon).2 < 0 ∨ f.Grid.Nj ≤ (f.Grid.LatLonToIJ lat lon).2
      then GF.nan
      else f.Vals.getD ((f.Grid.LatLonToIJ lat lon).2 * f.Grid.Ni +
        (f.Grid.LatLonToIJ lat lon).1).toNat GF.nan) := by
  unfold Field.Lookup LambertGrid.Lookup
  by_cases hout : (f.Grid.LatLonToIJ lat lon).1 < 0 ∨
      f.Grid.Ni ≤ (f.Grid.LatLonToIJ lat lon).1 ∨
      (f.Grid.LatLonToIJ lat lon).2 < 0 ∨ f.Grid.Nj ≤ (f.Grid.LatLonToIJ lat lon).2
  · rw [if_pos hout, if_pos hout]
  · rw [if_neg hout, if_neg hout]
    push_neg at hout
    obtain ⟨hi0, hiN, hj0, hjN⟩ := hout
    have hidx0 : 0 ≤ (f.Grid.LatLonToIJ lat lon).2 * f.Grid.Ni +
        (f.Grid.LatLonToIJ lat lon).1 :=
      add_nonneg (mul_nonneg hj0 (le_of_lt hNi)) hi0
    have hidxlt : (f.Grid.LatLonToIJ lat lon).2 * f.Grid.Ni +
        (f.Grid.LatLonToIJ lat lon).1 < f.Grid.Ni * f.Grid.Nj := by
      have hj1 : (f.Grid.LatLonToIJ lat lon).2 ≤ f.Grid.Nj - 1 := by omega
      have hmul : (f.Grid.LatLonToIJ lat lon).2 * f.Grid.Ni ≤
          (f.Grid.Nj - 1) * f.Grid.Ni :=
        mul_le_mul_of_nonneg_right hj1 (le_of_lt hNi)
      nlinarith
    have hlt : ((f.Grid.LatLonToIJ lat lon).2 * f.Grid.Ni +
        (f.Grid.LatLonToIJ lat lon).1).toNat < f.Vals.length := by omega
    unfold goIdx
    rw [if_pos hidx0, List.getElem?_eq_getElem hlt,
      List.getD_eq_getElem f.Vals GF.nan hlt]
/-- Witness for C9: a 1×1 grid holding the single value 7, queried at the
origin. -/
theorem C9_lookup_spec_witness :
    Field.Lookup ⟨⟨1, 1, 0, 0, 0, 0, 0, 0, 0, 64⟩, [GF.num 7]⟩ 0 0 = some (
      if ((⟨1, 1, 0, 0, 0, 0, 0, 0, 0, 64⟩ : LambertGrid).LatLonToIJ 0 0).1 < 0 ∨
          (1 : Int) ≤ ((⟨1, 1, 0, 0, 0, 0, 0, 0, 0, 64⟩ : LambertGrid).LatLonToIJ 0 0).1 ∨
          ((⟨1, 1, 0, 0, 0, 0, 0, 0, 0, 64⟩ : LambertGrid).LatLonToIJ 0 0).2 < 0 ∨
          (1 : Int) ≤ ((⟨1, 1, 0, 0, 0, 0, 0, 0, 0, 64⟩ : LambertGrid).LatLonToIJ 0 0).2
      then GF.nan
      else [GF.num 7].getD (((⟨1, 1, 0, 0, 0, 0, 0, 0, 0, 64⟩ : LambertGrid).LatLonToIJ 0 0).2 * 1 +
        ((⟨1, 1, 0, 0, 0, 0, 0, 0, 0, 64⟩ : LambertGrid).LatLonToIJ 0 0).1).toNat GF.nan) :=
  C9_lookup_spec ⟨⟨1, 1, 0, 0, 0, 0, 0, 0, 0, 64⟩, [GF.num 7]⟩ 0 0
    (by decide) (by decide) (by decide)

end Grib
